import Mathlib

/-!
Verification development for `scripts/coverage_report.py` of Necromancers-Shell.

Modelling conventions (shallow embedding):
* Python `str` values are modelled as `List Char`.
* Python `float` arithmetic on the parsed percentages is modelled as exact
  rational arithmetic (`ℚ`); `float("d1.d2")` is the exact decimal value.
* Python `int(x)` on a float is truncation toward zero, modelled by `pyTrunc`.
* `re.search` with the two concrete patterns used by the script is modelled by
  specialized scanners (`fileFind`, `covFind`) implementing leftmost-match
  semantics; for these patterns greedy matching never backtracks across the
  literal separators, so maximal-munch digit/non-quote runs are faithful.
* `subprocess.run` is an external effect; it is modelled by a
  `SubprocResult` input (captured stdout/stderr, or a raised exception).
* `print` output is modelled as an abstract list of `Line` values carrying the
  data that the script interpolates into each printed line; fixed-format
  padding of the text itself is not modelled.
-/

/-- The apostrophe character `'` (ASCII 39), used by the gcov `File '...'` line. -/
def quoteC : Char := Char.ofNat 39

/-- The `.` character separating integer and fractional digits of the percentage. -/
def dotC : Char := '.'

/-- Chars of the literal `File '` which opens the first regex `File '([^']+)'`. -/
def litFile : List Char := "File ".data ++ [quoteC]

/-- Chars of the literal `Lines executed:` opening the second regex. -/
def litCov : List Char := "Lines executed:".data

/-- Chars of the literal `% of ` between the two numeric groups of the second regex. -/
def litPctOf : List Char := "% of ".data

/-- Match a literal at the head of `s`; return the remaining characters. -/
def matchLit : List Char → List Char → Option (List Char)
  | s, [] => some s
  | [], _ :: _ => none
  | c :: cs, p :: ps => if c == p then matchLit cs ps else none

/-- Value of a digit run, as Python `int(...)` of the matched group. -/
def natOfDigits (ds : List Char) : ℕ :=
  ds.foldl (fun n c => 10 * n + (c.toNat - 48)) 0

/-- Exact value of the decimal `d1.d2`, as Python `float(...)` of the matched
group (idealized: exact rational, no binary-float rounding). -/
def ratOfDigits (d1 d2 : List Char) : ℚ :=
  (natOfDigits d1 : ℚ) + (natOfDigits d2 : ℚ) / (10 : ℚ) ^ d2.length

/-- Attempt to match `File '([^']+)'` at the start of `s`; returns group 1. -/
def fileMatchAt (s : List Char) : Option (List Char) :=
  match matchLit s litFile with
  | none => none
  | some r1 =>
    match r1.takeWhile (fun c => c != quoteC), r1.dropWhile (fun c => c != quoteC) with
    | c :: cs, _ :: _ => some (c :: cs)
    | _, _ => none

/-- Leftmost match, as `re.search(r"File '([^']+)'", s)`. -/
def fileFind : List Char → Option (List Char)
  | [] => none
  | c :: cs =>
    match fileMatchAt (c :: cs) with
    | some r => some r
    | none => fileFind cs

/-- Attempt to match `Lines executed:(\d+\.\d+)% of (\d+)` at the start of `s`;
returns the percentage (group 1, as an exact rational) and the total (group 2). -/
def covMatchAt (s : List Char) : Option (ℚ × ℕ) :=
  match matchLit s litCov with
  | none => none
  | some r1 =>
    match r1.takeWhile Char.isDigit, r1.dropWhile Char.isDigit with
    | d1 :: ds1, c :: r3 =>
      if c == dotC then
        match r3.takeWhile Char.isDigit, r3.dropWhile Char.isDigit with
        | d2 :: ds2, r4 =>
          match matchLit r4 litPctOf with
          | none => none
          | some r5 =>
            match r5.takeWhile Char.isDigit with
            | [] => none
            | d3 :: ds3 =>
              some (ratOfDigits (d1 :: ds1) (d2 :: ds2), natOfDigits (d3 :: ds3))
        | [], _ => none
      else none
    | _, _ => none

/-- Leftmost match, as `re.search(r"Lines executed:(\d+\.\d+)% of (\d+)", s)`. -/
def covFind : List Char → Option (ℚ × ℕ)
  | [] => none
  | c :: cs =>
    match covMatchAt (c :: cs) with
    | some r => some r
    | none => covFind cs

/-- Python `int()` applied to a rational: truncation toward zero. -/
def pyTrunc (q : ℚ) : ℤ :=
  if q < 0 then -⌊-q⌋ else ⌊q⌋

/-- Outcome of `subprocess.run(['gcov', '-r', gcda_file], capture_output=True, text=True)`:
either captured stdout and stderr, or an exception raised by the invocation. -/
inductive SubprocResult : Type where
  | ok (stdout stderr : List Char)
  | raised
deriving DecidableEq

/-- The dict built by `parse_gcov_output`:
`{'file': ..., 'percentage': ..., 'covered': ..., 'total': ...}`. -/
structure CoverageRecord : Type where
  file : List Char
  percentage : ℚ
  covered : ℤ
  total : ℕ
deriving DecidableEq

/-- Model of `parse_gcov_output`, with the subprocess outcome for the `.gcda`
file passed as input.  `output = result.stdout + result.stderr`; both regexes must match;
`covered_lines = int(total_lines * percentage / 100)`; any raised exception is
swallowed by the `try/except` and yields `None`. -/
def parse_gcov_output : SubprocResult → Option CoverageRecord
  | SubprocResult.raised => none
  | SubprocResult.ok stdout stderr =>
    let output := stdout ++ stderr
    match fileFind output, covFind output with
    | some f, some (p, t) =>
      some { file := f, percentage := p,
             covered := pyTrunc ((t : ℚ) * p / 100), total := t }
    | _, _ => none

example :
    parse_gcov_output (SubprocResult.ok
      ("File ".data ++ [quoteC] ++ "src/core/a.c".data ++ [quoteC]
        ++ "\nLines executed:75.00% of 40\n".data) []) =
    some { file := "src/core/a.c".data, percentage := 75, covered := 30, total := 40 } :=
  of_decide_eq_true (by with_unfolding_all rfl)

example : parse_gcov_output (SubprocResult.ok "no matches here".data []) = none := by
  decide

/-- Does `s` start with `pat`? (helper for Python's `in` substring test). -/
def startsWithC : List Char → List Char → Bool
  | _, [] => true
  | [], _ :: _ => false
  | c :: cs, p :: ps => c == p && startsWithC cs ps

/-- Python `pat in s` substring membership on strings. -/
def containsC (pat : List Char) : List Char → Bool
  | [] => startsWithC [] pat
  | c :: cs => startsWithC (c :: cs) pat || containsC pat cs

/-- The `if '/core/' in file_path ... elif ... else 'Other'` chain of `main`,
classifying a record's file path into a category name. -/
def categorize (file_path : List Char) : String :=
  if containsC "/core/".data file_path then "Core Systems"
  else if containsC "/commands/".data file_path then "Command System"
  else if containsC "/game/souls/".data file_path
      || containsC "/game/minions/".data file_path then "Game Entities"
  else if containsC "/game/combat/".data file_path then "Combat System"
  else if containsC "/game/narrative/".data file_path then "Narrative Systems"
  else if containsC "/game/world/".data file_path then "World Systems"
  else if containsC "/game/progression/".data file_path then "Progression"
  else if containsC "/terminal/".data file_path then "Terminal/UI"
  else if containsC "/utils/".data file_path then "Utilities"
  else if containsC "/data/".data file_path then "Data Loaders"
  else "Other"

/-- The eleven category labels (ten named rules plus the catch-all `Other`). -/
def labels11 : List String :=
  ["Core Systems", "Command System", "Game Entities", "Combat System",
   "Narrative Systems", "World Systems", "Progression", "Terminal/UI",
   "Utilities", "Data Loaders", "Other"]

/-- The ordered fragment → category rules exactly as the spec lists them; the
`Game Entities` rule carries its two alternative fragments. -/
def categoryRules : List (List (List Char) × String) :=
  [(["/core/".data], "Core Systems"),
   (["/commands/".data], "Command System"),
   (["/game/souls/".data, "/game/minions/".data], "Game Entities"),
   (["/game/combat/".data], "Combat System"),
   (["/game/narrative/".data], "Narrative Systems"),
   (["/game/world/".data], "World Systems"),
   (["/game/progression/".data], "Progression"),
   (["/terminal/".data], "Terminal/UI"),
   (["/utils/".data], "Utilities"),
   (["/data/".data], "Data Loaders")]

/-- Classification as the spec words it: first rule (in order) whose fragment
occurs in the path wins; `Other` when no fragment matches. -/
def spec_classify (p : List Char) : String :=
  match categoryRules.find? (fun rule => rule.1.any (fun frag => containsC frag p)) with
  | some rule => rule.2
  | none => "Other"

/-- Sum of the `total` fields, as `sum(d['total'] for d in coverage_data)`. -/
def totalSum (rs : List CoverageRecord) : ℕ :=
  (rs.map CoverageRecord.total).sum

/-- Sum of the `covered` fields, as `sum(d['covered'] for d in coverage_data)`. -/
def coveredSum (rs : List CoverageRecord) : ℤ :=
  (rs.map CoverageRecord.covered).sum

/-- Python `/` on numbers: raises `ZeroDivisionError` on a zero denominator. -/
def pyDiv (a b : ℚ) : Except String ℚ :=
  if b = 0 then Except.error "ZeroDivisionError" else Except.ok (a / b)

/-- Overall percentage: `(covered_lines / total_lines * 100) if total_lines > 0 else 0`. -/
def overall_percentage (rs : List CoverageRecord) : Except String ℚ :=
  if 0 < totalSum rs then
    (fun d => d * 100) <$> pyDiv (coveredSum rs : ℚ) (totalSum rs : ℚ)
  else Except.ok 0

/-- One update step of the `categories` defaultdict:
`categories[category]['covered'] += data['covered']` and likewise for `total`. -/
def catUpdate (m : String → ℤ × ℕ) (r : CoverageRecord) : String → ℤ × ℕ :=
  fun c =>
    if c = categorize r.file then ((m c).1 + r.covered, (m c).2 + r.total) else m c

/-- The `categories` defaultdict after the grouping loop, as a total map from
category name to its `(covered, total)` running sums (default `(0, 0)`). -/
def catMap (rs : List CoverageRecord) : String → ℤ × ℕ :=
  rs.foldl catUpdate (fun _ => (0, 0))

/-- Keys of the `categories` dict in Python insertion order (first occurrence). -/
def catKeysOf (rs : List CoverageRecord) : List String :=
  rs.foldl (fun ks r => if categorize r.file ∈ ks then ks else ks ++ [categorize r.file]) []

/-- Per-category percentage `(stats['covered'] / stats['total'] * 100) if
stats['total'] > 0 else 0` for one category's running sums. -/
def category_percentage (st : ℤ × ℕ) : Except String ℚ :=
  if 0 < st.2 then (fun d => d * 100) <$> pyDiv (st.1 : ℚ) (st.2 : ℚ)
  else Except.ok 0

/-- Code-point comparison of strings, as Python `<` on `str` (used by `sorted`
over the category keys). -/
def strLtC : List Char → List Char → Bool
  | [], [] => false
  | [], _ :: _ => true
  | _ :: _, [] => false
  | a :: as, b :: bs =>
    if a.toNat < b.toNat then true
    else if a == b then strLtC as bs
    else false

/-- Insert a string into a lexicographically ascending sorted list. -/
def insertStr (a : String) : List String → List String
  | [] => [a]
  | b :: bs => if strLtC a.data b.data then a :: b :: bs else b :: insertStr a bs

/-- Model of `sorted(categories.keys())`: the category names in ascending order. -/
def sortStrings : List String → List String
  | [] => []
  | a :: as => insertStr a (sortStrings as)

/-- Stable insertion (descending by `percentage`): the new element goes before
the first element whose percentage it reaches, hence after all earlier-parsed
records of equal percentage. -/
def insertDesc (a : CoverageRecord) : List CoverageRecord → List CoverageRecord
  | [] => [a]
  | b :: bs =>
    if b.percentage ≤ a.percentage then a :: b :: bs else b :: insertDesc a bs

/-- Model of `sorted(coverage_data, key=lambda x: x['percentage'], reverse=True)`:
stable sort, descending by percentage. -/
def sortPctDesc : List CoverageRecord → List CoverageRecord
  | [] => []
  | a :: as => insertDesc a (sortPctDesc as)

/-- Stable insertion (ascending by `percentage`). -/
def insertAsc (a : CoverageRecord) : List CoverageRecord → List CoverageRecord
  | [] => [a]
  | b :: bs =>
    if a.percentage ≤ b.percentage then a :: b :: bs else b :: insertAsc a bs

/-- Model of `low_coverage.sort(key=lambda x: x['percentage'])`: stable ascending sort. -/
def sortPctAsc : List CoverageRecord → List CoverageRecord
  | [] => []
  | a :: as => insertAsc a (sortPctAsc as)

/-- The slice `top_files = sorted(coverage_data, key=..., reverse=True)[:10]`. -/
def top_files (rs : List CoverageRecord) : List CoverageRecord :=
  (sortPctDesc rs).take 10

/-- The comprehension `[d for d in coverage_data if d['percentage'] < 50]`. -/
def low_coverage (rs : List CoverageRecord) : List CoverageRecord :=
  rs.filter (fun r => decide (r.percentage < 50))

/-- The at-most-15 low-coverage records actually printed (`low_coverage[:15]`
after the ascending sort). -/
def lowShown (rs : List CoverageRecord) : List CoverageRecord :=
  (sortPctAsc (low_coverage rs)).take 15

/-- Python `os.path.basename`: the part of the path after the last `/`. -/
def basename (p : List Char) : List Char :=
  (p.reverse.takeWhile (fun c => c != '/')).reverse

/-- One printed line of the report, abstracted to the data the script
interpolates into it (fixed text and column padding are not modelled). -/
inductive Line : Type where
  | bannerEq
  | title
  | blank
  | noData
  | foundCount (n : ℕ)
  | couldNotParse
  | overallPct (pct : ℚ)
  | coveredTotal (covered : ℤ) (total : ℕ)
  | catSectionHeader
  | dash
  | catColHeader
  | categoryRow (name : String) (pct : ℚ) (covered : ℤ) (total : ℕ)
  | topHeader
  | fileRow (base : List Char) (pct : ℚ) (covered : ℤ) (total : ℕ)
  | lowHeader (n : ℕ)
  | allClear
  | hintLcov
  | hintMake
deriving DecidableEq

/-- The "Files Needing Improvement" section: header and at most 15 ascending
rows when any record is below 50%, the all-clear line otherwise. -/
def lowSection (rs : List CoverageRecord) : List Line :=
  if low_coverage rs = [] then [Line.allClear]
  else
    Line.lowHeader (low_coverage rs).length :: Line.dash ::
      (lowShown rs).map (fun r => Line.fileRow (basename r.file) r.percentage r.covered r.total)

/-- The per-category table rows, in the given key order; each percentage uses
the zero-guarded division. -/
def catRowsOf (cmap : String → ℤ × ℕ) : List String → Except String (List Line)
  | [] => Except.ok []
  | c :: cs => do
    let pct ← category_percentage (cmap c)
    let rest ← catRowsOf cmap cs
    Except.ok (Line.categoryRow c pct (cmap c).1 (cmap c).2 :: rest)

/-- Model of `main`, with the discovered `.gcda` paths and the per-file
subprocess outcomes passed as inputs (the `os.walk` scan and `subprocess.run` are external
effects).  An uncaught Python exception would surface as `Except.error`. -/
def report_main (gcda_files : List String) (run : String → SubprocResult) :
    Except String (List Line) :=
  let header := [Line.bannerEq, Line.title, Line.bannerEq, Line.blank]
  if gcda_files = [] then
    Except.ok (header ++ [Line.noData])
  else
    let coverage_data := gcda_files.filterMap (fun g => parse_gcov_output (run g))
    if coverage_data = [] then
      Except.ok (header ++ [Line.foundCount gcda_files.length, Line.blank, Line.couldNotParse])
    else do
      let overall ← overall_percentage coverage_data
      let catRows ← catRowsOf (catMap coverage_data) (sortStrings (catKeysOf coverage_data))
      Except.ok (header
        ++ [Line.foundCount gcda_files.length, Line.blank]
        ++ [Line.overallPct overall,
            Line.coveredTotal (coveredSum coverage_data) (totalSum coverage_data), Line.blank]
        ++ [Line.catSectionHeader, Line.dash, Line.catColHeader, Line.dash]
        ++ catRows ++ [Line.blank]
        ++ [Line.topHeader, Line.dash]
        ++ (top_files coverage_data).map
            (fun r => Line.fileRow (basename r.file) r.percentage r.covered r.total)
        ++ [Line.blank]
        ++ lowSection coverage_data
        ++ [Line.blank, Line.bannerEq, Line.hintLcov, Line.hintMake, Line.bannerEq])

/-- Exit status of the script: `0` when `main()` returns, nonzero when an
uncaught exception escapes. -/
def script_exit_code (gcda_files : List String) (run : String → SubprocResult) : ℕ :=
  match report_main gcda_files run with
  | Except.ok _ => 0
  | Except.error _ => 1

lemma ratOfDigits_nonneg (d1 d2 : List Char) : 0 ≤ ratOfDigits d1 d2 := by
  unfold ratOfDigits
  positivity

lemma covMatchAt_nonneg {s : List Char} {p : ℚ} {t : ℕ}
    (h : covMatchAt s = some (p, t)) : 0 ≤ p := by
  unfold covMatchAt at h
  repeat' split at h
  all_goals simp_all
  exact h.1 ▸ ratOfDigits_nonneg _ _

lemma covFind_nonneg {s : List Char} {p : ℚ} {t : ℕ}
    (h : covFind s = some (p, t)) : 0 ≤ p := by
  induction s with
  | nil => simp [covFind] at h
  | cons c cs ih =>
    unfold covFind at h
    split at h
    · next r heq =>
      cases h
      exact covMatchAt_nonneg heq
    · exact ih h

lemma pyTrunc_eq_floor {q : ℚ} (h : 0 ≤ q) : pyTrunc q = ⌊q⌋ := by
  unfold pyTrunc
  rw [if_neg (not_lt.mpr h)]

/-- C1: for every coverage-tool output in which both patterns match (the
`File '<path>'` line and the `Lines executed:<percent>% of <total>` line),
`parse_gcov_output` returns a record whose `covered` equals
`⌊total * percentage / 100⌋`, whose `total` is the parsed total and whose
`percentage` is the parsed percent. -/
theorem necromancers_C1_extraction_floor
    (stdout stderr f : List Char) (p : ℚ) (t : ℕ)
    (hf : fileFind (stdout ++ stderr) = some f)
    (hc : covFind (stdout ++ stderr) = some (p, t)) :
    parse_gcov_output (SubprocResult.ok stdout stderr) =
      some { file := f, percentage := p, covered := ⌊(t : ℚ) * p / 100⌋, total := t } := by
  have hp : (0 : ℚ) ≤ (t : ℚ) * p / 100 := by
    have := covFind_nonneg hc
    positivity
  simp only [parse_gcov_output, hf, hc, pyTrunc_eq_floor hp]

/-- Concrete gcov output used by the C1 witness. -/
def c1out : List Char :=
  "File ".data ++ [quoteC] ++ "src/core/a.c".data ++ [quoteC]
    ++ "\nLines executed:75.00% of 40\n".data

/-- Witness for C1: a well-formed output yields the floor-computed record. -/
theorem necromancers_C1_witness :
    parse_gcov_output (SubprocResult.ok c1out []) =
      some { file := "src/core/a.c".data, percentage := 75, covered := 30, total := 40 } := by
  have h := necromancers_C1_extraction_floor c1out [] "src/core/a.c".data 75 40
    (of_decide_eq_true (by with_unfolding_all rfl))
    (of_decide_eq_true (by with_unfolding_all rfl))
  exact h.trans (of_decide_eq_true (by with_unfolding_all rfl))

/-- C2: whenever either pattern fails to match the combined output, or the
subprocess invocation raised, `parse_gcov_output` returns `None`.  (The model
is a total function, so no exception can propagate to the caller.) -/
theorem necromancers_C2_fail_silent :
    parse_gcov_output SubprocResult.raised = none ∧
    ∀ stdout stderr : List Char,
      (fileFind (stdout ++ stderr) = none ∨ covFind (stdout ++ stderr) = none) →
        parse_gcov_output (SubprocResult.ok stdout stderr) = none := by
  refine ⟨rfl, fun stdout stderr h => ?_⟩
  rcases h with h | h
  · simp [parse_gcov_output, h]
  · cases hf : fileFind (stdout ++ stderr) <;> simp [parse_gcov_output, hf, h]

/-- Witness for C2: an output with no `File '...'` line yields no record. -/
theorem necromancers_C2_witness :
    (fileFind ("hello".data ++ []) = none ∨ covFind ("hello".data ++ []) = none) ∧
    parse_gcov_output (SubprocResult.ok "hello".data []) = none :=
  ⟨Or.inl (by decide), necromancers_C2_fail_silent.2 "hello".data [] (Or.inl (by decide))⟩

lemma categorize_mem (p : List Char) : categorize p ∈ labels11 := by
  unfold categorize
  repeat' split
  all_goals decide

/-- C3: classification is total — every path gets exactly one of the eleven
labels — and the `elif` chain agrees with the spec's ordered
first-match-wins fragment rules (`Other` when no fragment matches). -/
theorem necromancers_C3_classification (p : List Char) :
    categorize p ∈ labels11 ∧ categorize p = spec_classify p := by
  refine ⟨categorize_mem p, ?_⟩
  unfold categorize spec_classify
  simp only [categoryRules, List.find?, List.any_cons, List.any_nil, Bool.or_false]
  generalize containsC "/core/".data p = c1
  generalize containsC "/commands/".data p = c2
  generalize containsC "/game/souls/".data p = c3a
  generalize containsC "/game/minions/".data p = c3b
  generalize containsC "/game/combat/".data p = c4
  generalize containsC "/game/narrative/".data p = c5
  generalize containsC "/game/world/".data p = c6
  generalize containsC "/game/progression/".data p = c7
  generalize containsC "/terminal/".data p = c8
  generalize containsC "/utils/".data p = c9
  generalize containsC "/data/".data p = c10
  cases c1 <;> cases c2 <;> cases c3a <;> cases c3b <;> cases c4 <;> cases c5 <;>
    cases c6 <;> cases c7 <;> cases c8 <;> cases c9 <;> cases c10 <;> rfl

/-- C4: the aggregate percentages never fault on a zero denominator — a zero
summed total (in particular the empty record list) yields exactly `0`, and the
same zero-guarded rule applies to every per-category percentage. -/
theorem necromancers_C4_zero_guard :
    (∀ rs : List CoverageRecord, totalSum rs = 0 → overall_percentage rs = Except.ok 0) ∧
    (∀ (rs : List CoverageRecord) (c : String),
      (catMap rs c).2 = 0 → category_percentage (catMap rs c) = Except.ok 0) := by
  constructor
  · intro rs h
    unfold overall_percentage
    rw [h]
    simp
  · intro rs c h
    unfold category_percentage
    rw [h]
    simp

/-- Witness for C4 at the empty record list and the `Other` category. -/
theorem necromancers_C4_witness :
    totalSum [] = 0 ∧ overall_percentage [] = Except.ok 0 ∧
    (catMap [] "Other").2 = 0 ∧ category_percentage (catMap [] "Other") = Except.ok 0 :=
  ⟨rfl, necromancers_C4_zero_guard.1 [] rfl, rfl,
    necromancers_C4_zero_guard.2 [] "Other" rfl⟩

lemma map_if_update_of_not_mem {α : Type} (g f : String → α) {x : String} :
    ∀ {L : List String}, x ∉ L →
      L.map (fun c => if c = x then f c else g c) = L.map g := by
  intro L
  induction L with
  | nil => intro _; rfl
  | cons a as ih =>
    intro hx
    have hax : a ≠ x := fun h => hx (h ▸ List.mem_cons_self a as)
    simp only [List.map_cons, if_neg hax, ih (fun h => hx (List.mem_cons_of_mem a h))]

lemma sum_map_if_update {α : Type} [AddCommMonoid α] :
    ∀ (L : List String) (g : String → α) (x : String) (v : α),
      x ∈ L → L.Nodup →
      (L.map (fun c => if c = x then g c + v else g c)).sum = (L.map g).sum + v := by
  intro L
  induction L with
  | nil =>
    intro g x v hx _
    exact absurd hx (List.not_mem_nil x)
  | cons a as ih =>
    intro g x v hx hnd
    rcases List.mem_cons.mp hx with rfl | hx'
    · have hnotin : x ∉ as := (List.nodup_cons.mp hnd).1
      rw [List.map_cons, if_pos rfl,
        map_if_update_of_not_mem g (fun c => g c + v) hnotin,
        List.sum_cons, List.map_cons, List.sum_cons, add_right_comm]
    · have hax : a ≠ x := by
        rintro rfl
        exact (List.nodup_cons.mp hnd).1 hx'
      rw [List.map_cons, if_neg hax, List.sum_cons,
        ih g x v hx' (List.nodup_cons.mp hnd).2,
        List.map_cons, List.sum_cons, add_assoc]

lemma catUpdate_fst (m : String → ℤ × ℕ) (r : CoverageRecord) (c : String) :
    (catUpdate m r c).1 =
      if c = categorize r.file then (m c).1 + r.covered else (m c).1 := by
  unfold catUpdate
  split <;> rfl

lemma catUpdate_snd (m : String → ℤ × ℕ) (r : CoverageRecord) (c : String) :
    (catUpdate m r c).2 =
      if c = categorize r.file then (m c).2 + r.total else (m c).2 := by
  unfold catUpdate
  split <;> rfl

lemma labels11_nodup : labels11.Nodup := by decide

lemma sum_foldl_catUpdate_fst :
    ∀ (rs : List CoverageRecord) (m : String → ℤ × ℕ),
      (labels11.map (fun c => (List.foldl catUpdate m rs c).1)).sum
        = (labels11.map (fun c => (m c).1)).sum + coveredSum rs := by
  intro rs
  induction rs with
  | nil => intro m; simp [coveredSum]
  | cons r rs ih =>
    intro m
    rw [List.foldl_cons, ih (catUpdate m r)]
    have hstep : (labels11.map (fun c => (catUpdate m r c).1)).sum
        = (labels11.map (fun c => (m c).1)).sum + r.covered := by
      have h := sum_map_if_update labels11 (fun c => (m c).1)
        (categorize r.file) r.covered (categorize_mem r.file) labels11_nodup
      rw [← h]
      congr 1
      exact List.map_congr_left (fun c _ => catUpdate_fst m r c)
    rw [hstep]
    have : coveredSum (r :: rs) = r.covered + coveredSum rs := by
      simp [coveredSum]
    rw [this, add_assoc]

lemma sum_foldl_catUpdate_snd :
    ∀ (rs : List CoverageRecord) (m : String → ℤ × ℕ),
      (labels11.map (fun c => (List.foldl catUpdate m rs c).2)).sum
        = (labels11.map (fun c => (m c).2)).sum + totalSum rs := by
  intro rs
  induction rs with
  | nil => intro m; simp [totalSum]
  | cons r rs ih =>
    intro m
    rw [List.foldl_cons, ih (catUpdate m r)]
    have hstep : (labels11.map (fun c => (catUpdate m r c).2)).sum
        = (labels11.map (fun c => (m c).2)).sum + r.total := by
      have h := sum_map_if_update labels11 (fun c => (m c).2)
        (categorize r.file) r.total (categorize_mem r.file) labels11_nodup
      rw [← h]
      congr 1
      exact List.map_congr_left (fun c _ => catUpdate_snd m r c)
    rw [hstep]
    have : totalSum (r :: rs) = r.total + totalSum rs := by
      simp [totalSum]
    rw [this, add_assoc]

/-- C8: category aggregation partitions the overall aggregate — summing the
per-category `covered` sums over the eleven labels recovers the overall
`covered` sum, and likewise for `total`. -/
theorem necromancers_C8_partition (rs : List CoverageRecord) :
    (labels11.map (fun c => (catMap rs c).1)).sum = coveredSum rs ∧
    (labels11.map (fun c => (catMap rs c).2)).sum = totalSum rs := by
  constructor
  · have h := sum_foldl_catUpdate_fst rs (fun _ => (0, 0))
    unfold catMap
    simpa using h
  · have h := sum_foldl_catUpdate_snd rs (fun _ => (0, 0))
    unfold catMap
    simpa using h

lemma perm_insertDesc (a : CoverageRecord) :
    ∀ l, List.Perm (insertDesc a l) (a :: l) := by
  intro l
  induction l with
  | nil => exact List.Perm.refl _
  | cons b bs ih =>
    unfold insertDesc
    split
    · exact List.Perm.refl _
    · exact (List.Perm.cons b ih).trans (List.Perm.swap a b bs)

lemma perm_sortPctDesc (l : List CoverageRecord) : List.Perm (sortPctDesc l) l := by
  induction l with
  | nil => exact List.Perm.refl _
  | cons a as ih =>
    exact (perm_insertDesc a (sortPctDesc as)).trans (List.Perm.cons a ih)

lemma pairwise_insertDesc {a : CoverageRecord} :
    ∀ {l : List CoverageRecord},
      l.Pairwise (fun x y => y.percentage ≤ x.percentage) →
      (insertDesc a l).Pairwise (fun x y => y.percentage ≤ x.percentage) := by
  intro l
  induction l with
  | nil => intro _; simp [insertDesc]
  | cons b bs ih =>
    intro hp
    rw [List.pairwise_cons] at hp
    unfold insertDesc
    split
    · next hba =>
      refine List.pairwise_cons.mpr ⟨?_, List.pairwise_cons.mpr hp⟩
      intro y hy
      rcases List.mem_cons.mp hy with rfl | hy'
      · exact hba
      · exact le_trans (hp.1 y hy') hba
    · next hba =>
      refine List.pairwise_cons.mpr ⟨?_, ih hp.2⟩
      intro y hy
      rcases List.mem_cons.mp ((perm_insertDesc a bs).mem_iff.mp hy) with rfl | hy'
      · exact le_of_not_le hba
      · exact hp.1 y hy'

lemma pairwise_sortPctDesc (l : List CoverageRecord) :
    (sortPctDesc l).Pairwise (fun x y => y.percentage ≤ x.percentage) := by
  induction l with
  | nil => simp [sortPctDesc]
  | cons a as ih => exact pairwise_insertDesc ih

lemma filter_insertDesc (q : ℚ) (a : CoverageRecord) :
    ∀ l, (insertDesc a l).filter (fun r => decide (r.percentage = q))
      = if a.percentage = q
          then a :: l.filter (fun r => decide (r.percentage = q))
          else l.filter (fun r => decide (r.percentage = q)) := by
  intro l
  induction l with
  | nil =>
    by_cases haq : a.percentage = q <;> simp [insertDesc, List.filter, haq]
  | cons b bs ih =>
    unfold insertDesc
    split
    · next hba =>
      by_cases haq : a.percentage = q <;> simp [List.filter_cons, haq]
    · next hba =>
      have hab : a.percentage < b.percentage := lt_of_not_le hba
      by_cases haq : a.percentage = q
      · have hbq : b.percentage ≠ q := by
          rw [← haq]
          exact ne_of_gt hab
        rw [if_pos haq, List.filter_cons, List.filter_cons, ih, if_pos haq]
        simp [hbq]
      · rw [if_neg haq, List.filter_cons, List.filter_cons, ih, if_neg haq]

lemma filter_sortPctDesc (q : ℚ) :
    ∀ l : List CoverageRecord,
      (sortPctDesc l).filter (fun r => decide (r.percentage = q))
        = l.filter (fun r => decide (r.percentage = q)) := by
  intro l
  induction l with
  | nil => rfl
  | cons a as ih =>
    unfold sortPctDesc
    rw [filter_insertDesc, ih, List.filter_cons]
    by_cases haq : a.percentage = q <;> simp [haq]

/-- C5: the top-10 table is the record list stably sorted by percentage in
descending order (a permutation, pairwise descending, and equal-percentage
records kept in original discovery order), truncated to at most 10 rows. -/
theorem necromancers_C5_top10 (rs : List CoverageRecord) :
    (top_files rs).length ≤ 10 ∧
    List.Perm (sortPctDesc rs) rs ∧
    (sortPctDesc rs).Pairwise (fun a b => b.percentage ≤ a.percentage) ∧
    (∀ q : ℚ, (sortPctDesc rs).filter (fun r => decide (r.percentage = q))
        = rs.filter (fun r => decide (r.percentage = q))) ∧
    top_files rs = (sortPctDesc rs).take 10 := by
  refine ⟨?_, perm_sortPctDesc rs, pairwise_sortPctDesc rs,
    fun q => filter_sortPctDesc q rs, rfl⟩
  unfold top_files
  rw [List.length_take]
  exact min_le_left _ _

lemma perm_insertAsc (a : CoverageRecord) :
    ∀ l, List.Perm (insertAsc a l) (a :: l) := by
  intro l
  induction l with
  | nil => exact List.Perm.refl _
  | cons b bs ih =>
    unfold insertAsc
    split
    · exact List.Perm.refl _
    · exact (List.Perm.cons b ih).trans (List.Perm.swap a b bs)

lemma perm_sortPctAsc (l : List CoverageRecord) : List.Perm (sortPctAsc l) l := by
  induction l with
  | nil => exact List.Perm.refl _
  | cons a as ih =>
    exact (perm_insertAsc a (sortPctAsc as)).trans (List.Perm.cons a ih)

lemma pairwise_insertAsc {a : CoverageRecord} :
    ∀ {l : List CoverageRecord},
      l.Pairwise (fun x y => x.percentage ≤ y.percentage) →
      (insertAsc a l).Pairwise (fun x y => x.percentage ≤ y.percentage) := by
  intro l
  induction l with
  | nil => intro _; simp [insertAsc]
  | cons b bs ih =>
    intro hp
    rw [List.pairwise_cons] at hp
    unfold insertAsc
    split
    · next hab =>
      refine List.pairwise_cons.mpr ⟨?_, List.pairwise_cons.mpr hp⟩
      intro y hy
      rcases List.mem_cons.mp hy with rfl | hy'
      · exact hab
      · exact le_trans hab (hp.1 y hy')
    · next hab =>
      refine List.pairwise_cons.mpr ⟨?_, ih hp.2⟩
      intro y hy
      rcases List.mem_cons.mp ((perm_insertAsc a bs).mem_iff.mp hy) with rfl | hy'
      · exact le_of_not_le hab
      · exact hp.1 y hy'

lemma pairwise_sortPctAsc (l : List CoverageRecord) :
    (sortPctAsc l).Pairwise (fun x y => x.percentage ≤ y.percentage) := by
  induction l with
  | nil => simp [sortPctAsc]
  | cons a as ih => exact pairwise_insertAsc ih

/-- C6: the needs-improvement list holds exactly the records strictly below
50.0 percent, ascending by percentage, truncated to at most 15 printed rows,
and the all-clear line replaces it when no record is below 50.0. -/
theorem necromancers_C6_low (rs : List CoverageRecord) :
    low_coverage rs = rs.filter (fun r => decide (r.percentage < 50)) ∧
    List.Perm (sortPctAsc (low_coverage rs)) (low_coverage rs) ∧
    (sortPctAsc (low_coverage rs)).Pairwise (fun a b => a.percentage ≤ b.percentage) ∧
    (∀ r, r ∈ sortPctAsc (low_coverage rs) → r.percentage < 50) ∧
    (lowShown rs).length ≤ 15 ∧
    lowShown rs = (sortPctAsc (low_coverage rs)).take 15 ∧
    (low_coverage rs = [] → lowSection rs = [Line.allClear]) ∧
    (low_coverage rs ≠ [] → lowSection rs =
      Line.lowHeader (low_coverage rs).length :: Line.dash ::
        (lowShown rs).map
          (fun r => Line.fileRow (basename r.file) r.percentage r.covered r.total)) := by
  refine ⟨rfl, perm_sortPctAsc _, pairwise_sortPctAsc _, ?_, ?_, rfl, ?_, ?_⟩
  · intro r hr
    have hr' : r ∈ low_coverage rs := (perm_sortPctAsc _).subset hr
    have := List.of_mem_filter hr'
    exact of_decide_eq_true this
  · unfold lowShown
    rw [List.length_take]
    exact min_le_left _ _
  · intro h
    unfold lowSection
    rw [if_pos h]
  · intro h
    unfold lowSection
    rw [if_neg h]

/-- A below-threshold record used by the C6 witness. -/
def lowRec : CoverageRecord :=
  { file := "src/game/combat/x.c".data, percentage := 10, covered := 2, total := 20 }

/-- Witness for C6: the empty list prints the all-clear line; a single
low-coverage record prints the header and its row. -/
theorem necromancers_C6_witness :
    (low_coverage [] = [] ∧ lowSection [] = [Line.allClear]) ∧
    (low_coverage [lowRec] ≠ [] ∧ lowSection [lowRec] =
      [Line.lowHeader 1, Line.dash, Line.fileRow "x.c".data 10 2 20]) := by
  have h1 := (necromancers_C6_low []).2.2.2.2.2.2.1
  have h2 := (necromancers_C6_low [lowRec]).2.2.2.2.2.2.2
  have hlow : low_coverage [lowRec] = [lowRec] := by with_unfolding_all rfl
  have hne : low_coverage [lowRec] ≠ [] := by
    rw [hlow]
    exact List.cons_ne_nil _ _
  refine ⟨⟨rfl, h1 rfl⟩, ⟨hne, (h2 hne).trans ?_⟩⟩
  exact of_decide_eq_true (by with_unfolding_all rfl)

lemma except_bind_ok {α β : Type} (a : α) (f : α → Except String β) :
    (Except.ok a >>= f) = f a := rfl

lemma category_percentage_ok (st : ℤ × ℕ) :
    ∃ q, category_percentage st = Except.ok q := by
  unfold category_percentage pyDiv
  split
  · next h =>
    rw [if_neg]
    · exact ⟨_, rfl⟩
    · exact ne_of_gt (by exact_mod_cast h)
  · exact ⟨0, rfl⟩

lemma overall_percentage_ok (rs : List CoverageRecord) :
    ∃ q, overall_percentage rs = Except.ok q := by
  unfold overall_percentage pyDiv
  split
  · next h =>
    rw [if_neg]
    · exact ⟨_, rfl⟩
    · exact ne_of_gt (by exact_mod_cast h)
  · exact ⟨0, rfl⟩

lemma catRowsOf_ok (cmap : String → ℤ × ℕ) :
    ∀ keys : List String, ∃ rows, catRowsOf cmap keys = Except.ok rows := by
  intro keys
  induction keys with
  | nil => exact ⟨[], rfl⟩
  | cons c cs ih =>
    obtain ⟨q, hq⟩ := category_percentage_ok (cmap c)
    obtain ⟨rows, hr⟩ := ih
    exact ⟨Line.categoryRow c q (cmap c).1 (cmap c).2 :: rows,
      by rw [catRowsOf, hq, except_bind_ok, hr, except_bind_ok]⟩

/-- C7: on every documented execution path — no artifacts, artifacts but no
parsable record, and the normal full report — `main` returns normally
(`Except.ok`, never an uncaught exception) and the exit status is success. -/
theorem necromancers_C7_exit (gcda_files : List String) (run : String → SubprocResult) :
    (∃ out, report_main gcda_files run = Except.ok out) ∧
    script_exit_code gcda_files run = 0 ∧
    (gcda_files = [] → report_main gcda_files run =
      Except.ok [Line.bannerEq, Line.title, Line.bannerEq, Line.blank, Line.noData]) ∧
    (gcda_files ≠ [] →
      gcda_files.filterMap (fun g => parse_gcov_output (run g)) = [] →
      report_main gcda_files run = Except.ok
        [Line.bannerEq, Line.title, Line.bannerEq, Line.blank,
         Line.foundCount gcda_files.length, Line.blank, Line.couldNotParse]) := by
  have hmain : ∃ out, report_main gcda_files run = Except.ok out := by
    simp only [report_main]
    split
    · exact ⟨_, rfl⟩
    · split
      · exact ⟨_, rfl⟩
      · obtain ⟨q, hq⟩ := overall_percentage_ok
          (gcda_files.filterMap (fun g => parse_gcov_output (run g)))
        obtain ⟨rows, hr⟩ := catRowsOf_ok
          (catMap (gcda_files.filterMap (fun g => parse_gcov_output (run g))))
          (sortStrings (catKeysOf (gcda_files.filterMap (fun g => parse_gcov_output (run g)))))
        rw [hq, except_bind_ok, hr, except_bind_ok]
        exact ⟨_, rfl⟩
  obtain ⟨out, hout⟩ := hmain
  refine ⟨⟨out, hout⟩, ?_, ?_, ?_⟩
  · unfold script_exit_code
    rw [hout]
  · intro h
    subst h
    rfl
  · intro h1 h2
    simp only [report_main, h2]
    rw [if_neg h1]
    rfl

/-- Witness for C7: the no-artifacts path and the none-parsable path both
return normally with exit status 0. -/
theorem necromancers_C7_witness :
    report_main [] (fun _ => SubprocResult.raised) =
      Except.ok [Line.bannerEq, Line.title, Line.bannerEq, Line.blank, Line.noData] ∧
    script_exit_code [] (fun _ => SubprocResult.raised) = 0 ∧
    report_main ["build/a.gcda"] (fun _ => SubprocResult.raised) =
      Except.ok [Line.bannerEq, Line.title, Line.bannerEq, Line.blank,
        Line.foundCount 1, Line.blank, Line.couldNotParse] :=
  ⟨(necromancers_C7_exit [] _).2.2.1 rfl,
   (necromancers_C7_exit [] _).2.1,
   (necromancers_C7_exit ["build/a.gcda"] _).2.2.2 (by simp) rfl⟩

lemma parse_some_shape {res : SubprocResult} {rec : CoverageRecord}
    (h : parse_gcov_output res = some rec) :
    ∃ (stdout stderr f : List Char) (p : ℚ) (t : ℕ),
      res = SubprocResult.ok stdout stderr ∧
      fileFind (stdout ++ stderr) = some f ∧
      covFind (stdout ++ stderr) = some (p, t) ∧
      rec = { file := f, percentage := p,
              covered := pyTrunc ((t : ℚ) * p / 100), total := t } := by
  cases res with
  | raised => exact absurd h (by simp [parse_gcov_output])
  | ok stdout stderr =>
    simp only [parse_gcov_output] at h
    split at h
    · next f p t hf hc =>
      cases h
      exact ⟨stdout, stderr, f, p, t, rfl, hf, hc, rfl⟩
    · exact absurd h (by simp)

/-- C9 (amended): every parsed record has non-negative percentage and covered
count; `covered ≤ total` whenever the percentage is at most 100; and — the
parser doing no upper-bound validation — an output above 100 percent still
yields a record, with `covered ≥ total` (not always strictly greater). -/
theorem necromancers_C9_bounds :
    (∀ (res : SubprocResult) (rec : CoverageRecord),
      parse_gcov_output res = some rec →
        0 ≤ rec.percentage ∧ 0 ≤ rec.covered ∧
        (rec.percentage ≤ 100 → rec.covered ≤ (rec.total : ℤ)) ∧
        (100 < rec.percentage → (rec.total : ℤ) ≤ rec.covered)) ∧
    (∃ (res : SubprocResult) (rec : CoverageRecord),
      parse_gcov_output res = some rec ∧ 100 < rec.percentage) := by
  constructor
  · intro res rec h
    obtain ⟨stdout, stderr, f, p, t, -, -, hc, rfl⟩ := parse_some_shape h
    have hp : 0 ≤ p := covFind_nonneg hc
    have hq : (0 : ℚ) ≤ (t : ℚ) * p / 100 := by positivity
    have hfl : pyTrunc ((t : ℚ) * p / 100) = ⌊(t : ℚ) * p / 100⌋ := pyTrunc_eq_floor hq
    refine ⟨hp, ?_, ?_, ?_⟩
    · rw [hfl]
      exact Int.floor_nonneg.mpr hq
    · intro hple
      rw [hfl]
      have hqt : (t : ℚ) * p / 100 ≤ (t : ℚ) := by
        rw [div_le_iff₀ (by norm_num : (0 : ℚ) < 100)]
        exact mul_le_mul_of_nonneg_left hple (Nat.cast_nonneg t)
      have := Int.floor_le_floor hqt
      rwa [Int.floor_natCast] at this
    · intro hgt
      rw [hfl]
      refine Int.le_floor.mpr ?_
      push_cast
      rw [le_div_iff₀ (by norm_num : (0 : ℚ) < 100)]
      calc (t : ℚ) * 100 ≤ (t : ℚ) * p :=
              mul_le_mul_of_nonneg_left (le_of_lt hgt) (Nat.cast_nonneg t)
        _ = (t : ℚ) * p := rfl
  · refine ⟨SubprocResult.ok
      ("File ".data ++ [quoteC] ++ "a.c".data ++ [quoteC]
        ++ "\nLines executed:200.0% of 10\n".data) [],
      { file := "a.c".data, percentage := 200, covered := 20, total := 10 },
      of_decide_eq_true (by with_unfolding_all rfl), by norm_num⟩

/-- Concrete gcov output (100.5% of 1 line) refuting the claim's strict
"coveredLines exceeding totalLines" for percentages above 100. -/
def c9cex : List Char :=
  "File ".data ++ [quoteC] ++ "a.c".data ++ [quoteC]
    ++ "\nLines executed:100.5% of 1\n".data

/-- Counterexample for C9 as stated: at `Lines executed:100.5% of 1` a record
is produced but its covered count equals (does not exceed) its total. -/
theorem necromancers_C9_counterexample :
    ¬ (∀ (res : SubprocResult) (rec : CoverageRecord),
        parse_gcov_output res = some rec → 100 < rec.percentage →
          (rec.total : ℤ) < rec.covered) := by
  intro hall
  have hparse : parse_gcov_output (SubprocResult.ok c9cex []) =
      some { file := "a.c".data, percentage := 201/2, covered := 1, total := 1 } :=
    of_decide_eq_true (by with_unfolding_all rfl)
  have h := hall _ _ hparse (by norm_num)
  exact absurd h (by norm_num)

/-- Concrete gcov output (200% of 10 lines) used by the C9 witness. -/
def c9ex : List Char :=
  "File ".data ++ [quoteC] ++ "a.c".data ++ [quoteC]
    ++ "\nLines executed:200.0% of 10\n".data

/-- Witness for C9 at a record whose percentage is above 100. -/
theorem necromancers_C9_witness :
    parse_gcov_output (SubprocResult.ok c9ex []) =
      some { file := "a.c".data, percentage := 200, covered := 20, total := 10 } ∧
    (0 ≤ (200 : ℚ) ∧ 0 ≤ (20 : ℤ) ∧
      ((200 : ℚ) ≤ 100 → (20 : ℤ) ≤ ((10 : ℕ) : ℤ)) ∧
      (100 < (200 : ℚ) → ((10 : ℕ) : ℤ) ≤ (20 : ℤ))) := by
  have hp : parse_gcov_output (SubprocResult.ok c9ex []) =
      some { file := "a.c".data, percentage := 200, covered := 20, total := 10 } :=
    of_decide_eq_true (by with_unfolding_all rfl)
  exact ⟨hp, necromancers_C9_bounds.1 _ _ hp⟩

lemma fileFind_first : ∀ {l f : List Char}, fileFind l = some f →
    ∃ i, fileMatchAt (l.drop i) = some f ∧
      ∀ j < i, fileMatchAt (l.drop j) = none := by
  intro l
  induction l with
  | nil => intro f h; simp [fileFind] at h
  | cons c cs ih =>
    intro f h
    unfold fileFind at h
    split at h
    · next r heq =>
      injection h with h'
      subst h'
      exact ⟨0, heq, fun j hj => absurd hj (Nat.not_lt_zero j)⟩
    · next heq =>
      obtain ⟨i, hi, hj⟩ := ih h
      refine ⟨i + 1, hi, ?_⟩
      intro j hjlt
      cases j with
      | zero => exact heq
      | succ j' => exact hj j' (Nat.lt_of_succ_lt_succ hjlt)

lemma covFind_first : ∀ {l : List Char} {q : ℚ × ℕ}, covFind l = some q →
    ∃ i, covMatchAt (l.drop i) = some q ∧
      ∀ j < i, covMatchAt (l.drop j) = none := by
  intro l
  induction l with
  | nil => intro q h; simp [covFind] at h
  | cons c cs ih =>
    intro q h
    unfold covFind at h
    split at h
    · next r heq =>
      injection h with h'
      subst h'
      exact ⟨0, heq, fun j hj => absurd hj (Nat.not_lt_zero j)⟩
    · next heq =>
      obtain ⟨i, hi, hj⟩ := ih h
      refine ⟨i + 1, hi, ?_⟩
      intro j hjlt
      cases j with
      | zero => exact heq
      | succ j' => exact hj j' (Nat.lt_of_succ_lt_succ hjlt)

lemma fileFind_of_matchAt : ∀ {l : List Char},
    (∃ (i : ℕ) (r : List Char), fileMatchAt (l.drop i) = some r) →
    ∃ r', fileFind l = some r' := by
  intro l
  induction l with
  | nil =>
    rintro ⟨i, r, hi⟩
    rw [List.drop_nil] at hi
    have hnil : fileMatchAt [] = none := by decide
    rw [hnil] at hi
    exact Option.noConfusion hi
  | cons c cs ih =>
    rintro ⟨i, r, hi⟩
    unfold fileFind
    split
    · exact ⟨_, rfl⟩
    · next hnone =>
      apply ih
      cases i with
      | zero => rw [List.drop_zero] at hi; exact absurd hi (by simp [hnone])
      | succ i' => exact ⟨i', r, hi⟩

lemma covFind_of_matchAt : ∀ {l : List Char},
    (∃ (i : ℕ) (q : ℚ × ℕ), covMatchAt (l.drop i) = some q) →
    ∃ q', covFind l = some q' := by
  intro l
  induction l with
  | nil =>
    rintro ⟨i, q, hi⟩
    rw [List.drop_nil] at hi
    have hnil : covMatchAt [] = none := by decide
    rw [hnil] at hi
    exact Option.noConfusion hi
  | cons c cs ih =>
    rintro ⟨i, q, hi⟩
    unfold covFind
    split
    · exact ⟨_, rfl⟩
    · next hnone =>
      apply ih
      cases i with
      | zero => rw [List.drop_zero] at hi; exact absurd hi (by simp [hnone])
      | succ i' => exact ⟨i', q, hi⟩

/-- C10: for every combined output `stdout + stderr`, the single record is
built from only the first occurrence of each pattern in that concatenated
text — its `file` is the capture of the file pattern at the least position
where that pattern matches, and its `percentage`/`total` are the groups of the
coverage pattern at the least position where that pattern matches, so all
later matches are ignored; conversely, whenever both patterns match anywhere
in the combined text (in particular when either occurs more than once), a
record is produced. -/
theorem necromancers_C10_first_occurrence :
    (∀ (stdout stderr : List Char) (rec : CoverageRecord),
      parse_gcov_output (SubprocResult.ok stdout stderr) = some rec →
      ∃ i j,
        fileMatchAt ((stdout ++ stderr).drop i) = some rec.file ∧
        (∀ i' < i, fileMatchAt ((stdout ++ stderr).drop i') = none) ∧
        covMatchAt ((stdout ++ stderr).drop j) = some (rec.percentage, rec.total) ∧
        (∀ j' < j, covMatchAt ((stdout ++ stderr).drop j') = none)) ∧
    (∀ stdout stderr : List Char,
      (∃ (i : ℕ) (r : List Char), fileMatchAt ((stdout ++ stderr).drop i) = some r) →
      (∃ (j : ℕ) (q : ℚ × ℕ), covMatchAt ((stdout ++ stderr).drop j) = some q) →
      ∃ rec, parse_gcov_output (SubprocResult.ok stdout stderr) = some rec) := by
  constructor
  · intro stdout stderr rec h
    obtain ⟨stdout', stderr', f, p, t, heq, hf, hc, rfl⟩ := parse_some_shape h
    injection heq with h1 h2
    subst h1
    subst h2
    obtain ⟨i, hi, hi'⟩ := fileFind_first hf
    obtain ⟨j, hj, hj'⟩ := covFind_first hc
    exact ⟨i, j, hi, hi', hj, hj'⟩
  · intro stdout stderr hfile hcov
    obtain ⟨f, hf⟩ := fileFind_of_matchAt hfile
    obtain ⟨q, hq⟩ := covFind_of_matchAt hcov
    obtain ⟨p, t⟩ := q
    refine ⟨{ file := f, percentage := p,
              covered := pyTrunc ((t : ℚ) * p / 100), total := t }, ?_⟩
    simp only [parse_gcov_output, hf, hq]

/-- A first `File` line and first `Lines executed:` line of a combined output. -/
def c10Block : List Char :=
  "File ".data ++ [quoteC] ++ "a.c".data ++ [quoteC]
    ++ "\nLines executed:12.5% of 8\n".data

/-- A second occurrence of both patterns, carried in `stderr`, so the combined
output of the C10 witness contains each pattern twice. -/
def c10SecondBlock : List Char :=
  "File ".data ++ [quoteC] ++ "b.c".data ++ [quoteC]
    ++ "\nLines executed:99.0% of 4\n".data

/-- Witness for C10 at a combined output with two occurrences of each pattern:
the record comes from the first `File`/`Lines executed:` occurrences only. -/
theorem necromancers_C10_witness :
    parse_gcov_output (SubprocResult.ok c10Block c10SecondBlock) =
      some { file := "a.c".data, percentage := 25/2, covered := 1, total := 8 } ∧
    ∃ i j,
      fileMatchAt ((c10Block ++ c10SecondBlock).drop i) = some "a.c".data ∧
      (∀ i' < i, fileMatchAt ((c10Block ++ c10SecondBlock).drop i') = none) ∧
      covMatchAt ((c10Block ++ c10SecondBlock).drop j) = some (25/2, 8) ∧
      (∀ j' < j, covMatchAt ((c10Block ++ c10SecondBlock).drop j') = none) := by
  have hp : parse_gcov_output (SubprocResult.ok c10Block c10SecondBlock) =
      some { file := "a.c".data, percentage := 25/2, covered := 1, total := 8 } :=
    of_decide_eq_true (by with_unfolding_all rfl)
  exact ⟨hp, necromancers_C10_first_occurrence.1 c10Block c10SecondBlock _ hp⟩
